import Mathlib

/-!
# Verification of elrond-go antiflood quota engine, pool cleaner and interceptor factory

Shallow embedding of three components of the sharded blockchain node:

* `process/throttle/antiflood/quotaFloodPreventer.go` (the quota flood preventer):
  `Quota`, `QfpConfig`, `QfpState`, `accumulate`, `AccumulateGlobal`, `Reset`.
* `process/block/poolsCleaner/txsPoolsCleaner.go` (the pool cleaner reaper pass):
  `TxInfo`, `cleanTxsPoolsIfNeeded`, `computeSenderAndReceiverShards`.
* `process/factory/shard/interceptorsContainerFactory.go` (the shard interceptors
  container factory constructor): `NewShardInterceptorsContainerFactory`.

Machine integers of the Go source (`uint32`, `uint64`) are embedded as `Nat` with
explicit reduction modulo `2^32` / `2^64` at each arithmetic operation that can
overflow in Go.  The quota cache (`storage.Cacher`) is embedded as an association
list from peer identifier to quota record; map/cache eviction is not modelled
(the claims under verification quantify over cache contents directly).
-/

namespace ElrondSpec

/-- `2^32`, the modulus of Go's `uint32` arithmetic. -/
def U32 : Nat := 4294967296

/-- `2^64`, the modulus of Go's `uint64` arithmetic. -/
def U64 : Nat := 18446744073709551616

/-! ## Quota flood preventer: data model

Source: `type quota struct` — four counters per peer.  `numReceivedMessages` and
`numProcessedMessages` are `uint32`; `sizeReceivedMessages` and
`sizeProcessedMessages` are `uint64`. -/

/-- The `quota` record of the source: per-peer counters. -/
structure Quota where
  numReceivedMessages : Nat
  sizeReceivedMessages : Nat
  numProcessedMessages : Nat
  sizeProcessedMessages : Nat
deriving DecidableEq, Repr

/-- The zero quota record, Go's `&quota{}`. -/
def Quota.zero : Quota := ⟨0, 0, 0, 0⟩

/-- Immutable configuration of a `quotaFloodPreventer`, fixed at construction:
the four limits and the registered status handlers (identified by index). -/
structure QfpConfig where
  maxMessagesPerPeer : Nat
  maxSizePerPeer : Nat
  maxMessages : Nat
  maxSize : Nat
  statusHandlers : List Nat
deriving DecidableEq, Repr

/-- Mutable state of a `quotaFloodPreventer`: the quota cache (association list
keyed by peer identifier, standing for the `storage.Cacher`) and the global
quota record. -/
structure QfpState where
  cache : List (String × Quota)
  globalQuota : Quota
deriving DecidableEq, Repr

/-- The state of a freshly constructed preventer: empty cache, zero global
quota (`globalQuota: &quota{}` in `NewQuotaFloodPreventer`). -/
def freshQfpState : QfpState := ⟨[], Quota.zero⟩

/-- `cacher.Get`: first entry with the given key, if any. -/
def cacheGet (k : String) : List (String × Quota) → Option Quota
  | [] => none
  | (k', q) :: rest => if k' = k then some q else cacheGet k rest

/-- `cacher.Put`: replace the entry with the given key, or append a new one. -/
def cachePut (k : String) (q : Quota) : List (String × Quota) → List (String × Quota)
  | [] => [(k, q)]
  | (k', q') :: rest => if k' = k then (k, q) :: rest else (k', q') :: cachePut k q rest

/-- The source's parameter validation in `NewQuotaFloodPreventer`:
`maxMessagesPerPeer`, `maxTotalSizePerPeer`, `maxMessages`, `maxTotalSize`
must each be at least `minMessages = 1` resp. `minTotalSize = 1`.
(The nil checks on the cacher and the status handlers concern Go interface
values and have no counterpart in this embedding.) -/
def NewQuotaFloodPreventerOk (cfg : QfpConfig) : Bool :=
  decide (1 ≤ cfg.maxMessagesPerPeer) && decide (1 ≤ cfg.maxSizePerPeer) &&
  decide (1 ≤ cfg.maxMessages) && decide (1 ≤ cfg.maxSize)

/-- A well-formed configuration: the constructor accepts it and each limit fits
its Go integer type (`uint32` for message counts, `uint64` for byte sizes). -/
def QfpConfig.Wf (cfg : QfpConfig) : Prop :=
  NewQuotaFloodPreventerOk cfg = true ∧
  cfg.maxMessagesPerPeer < U32 ∧ cfg.maxSizePerPeer < U64 ∧
  cfg.maxMessages < U32 ∧ cfg.maxSize < U64

instance (cfg : QfpConfig) : Decidable cfg.Wf := by
  unfold QfpConfig.Wf; infer_instance

/-- The global-quota admission test of `accumulate`:
`qfp.globalQuota.numReceivedMessages > qfp.maxMessages ||
 qfp.globalQuota.sizeReceivedMessages > qfp.maxSize`. -/
def globalQuotaReached (cfg : QfpConfig) (st : QfpState) : Bool :=
  decide (cfg.maxMessages < st.globalQuota.numReceivedMessages) ||
  decide (cfg.maxSize < st.globalQuota.sizeReceivedMessages)

/-- `putDefaultQuota`: insert the fresh record
`{initNumMessages, size, initNumMessages, size}` with `initNumMessages = 1`. -/
def putDefaultQuota (st : QfpState) (identifier : String) (size : Nat) : QfpState :=
  { st with cache := cachePut identifier ⟨1, size, 1, size⟩ st.cache }

/-- The private `accumulate` method (body of both `Accumulate` and
`AccumulateGlobal`).  Returns the admission verdict and the updated state.

The cache stores `*quota` pointers in Go, and `accumulate` mutates the record
obtained from `Get` through that shared pointer (`q.numReceivedMessages++`,
`q.sizeReceivedMessages += size`) before the budget test.  The cached record is
therefore updated on the rejected path as well, even though `Put` is only
called on the admitted path; the embedding writes the incremented record back
to the cache on both paths to mirror this aliasing. -/
def accumulate (cfg : QfpConfig) (st : QfpState) (identifier : String) (size : Nat) :
    Bool × QfpState :=
  if globalQuotaReached cfg st then
    (false, st)
  else
    match cacheGet identifier st.cache with
    | none => (true, putDefaultQuota st identifier size)
    | some q =>
      let q1 : Quota :=
        { q with
          numReceivedMessages := (q.numReceivedMessages + 1) % U32
          sizeReceivedMessages := (q.sizeReceivedMessages + size) % U64 }
      if cfg.maxMessagesPerPeer < q1.numReceivedMessages ∨
          cfg.maxSizePerPeer < q1.sizeReceivedMessages then
        (false, { st with cache := cachePut identifier q1 st.cache })
      else
        let q2 : Quota :=
          { q1 with
            numProcessedMessages := (q1.numProcessedMessages + 1) % U32
            sizeProcessedMessages := (q1.sizeProcessedMessages + size) % U64 }
        (true, { st with cache := cachePut identifier q2 st.cache })

/-- The public `Accumulate` method: takes the lock and calls `accumulate`.
It never touches the global quota counters. -/
def Accumulate (cfg : QfpConfig) (st : QfpState) (identifier : String) (size : Nat) :
    Bool × QfpState :=
  accumulate cfg st identifier size

/-- The public `AccumulateGlobal` method: unconditionally increments the
global received counters, runs `accumulate`, and increments the global
processed counters when the call is admitted. -/
def AccumulateGlobal (cfg : QfpConfig) (st : QfpState) (identifier : String) (size : Nat) :
    Bool × QfpState :=
  let g1 : Quota :=
    { st.globalQuota with
      numReceivedMessages := (st.globalQuota.numReceivedMessages + 1) % U32
      sizeReceivedMessages := (st.globalQuota.sizeReceivedMessages + size) % U64 }
  let r := accumulate cfg { st with globalQuota := g1 } identifier size
  if r.1 then
    (true,
      { r.2 with
        globalQuota :=
          { r.2.globalQuota with
            numProcessedMessages := (r.2.globalQuota.numProcessedMessages + 1) % U32
            sizeProcessedMessages := (r.2.globalQuota.sizeProcessedMessages + size) % U64 } })
  else
    (false, r.2)

/-- Observable calls made on the registered status handlers (identified by
index), as emitted by `resetStatusHandlers` and `createStatistics`. -/
inductive QEvent where
  | resetStatistics (handler : Nat)
  | addQuota (handler : Nat) (identifier : String)
      (numReceived sizeReceived numProcessed sizeProcessed : Nat)
  | setGlobalQuota (handler : Nat)
      (numReceived sizeReceived numProcessed sizeProcessed : Nat)
deriving DecidableEq, Repr

/-- `resetStatusHandlers`: call `ResetStatistics` on each registered handler. -/
def resetStatusHandlers (cfg : QfpConfig) : List QEvent :=
  cfg.statusHandlers.map QEvent.resetStatistics

/-- `createStatistics`: report each cached quota record through `AddQuota` on
each handler, then the global quota through `SetGlobalQuota` on each handler. -/
def createStatistics (cfg : QfpConfig) (st : QfpState) : List QEvent :=
  st.cache.flatMap (fun kv =>
    cfg.statusHandlers.map (fun h =>
      QEvent.addQuota h kv.1 kv.2.numReceivedMessages kv.2.sizeReceivedMessages
        kv.2.numProcessedMessages kv.2.sizeProcessedMessages)) ++
  cfg.statusHandlers.map (fun h =>
    QEvent.setGlobalQuota h st.globalQuota.numReceivedMessages
      st.globalQuota.sizeReceivedMessages st.globalQuota.numProcessedMessages
      st.globalQuota.sizeProcessedMessages)

/-- `Reset`: notify the status handlers (`resetStatusHandlers` then
`createStatistics`), clear the cache (`cacher.Clear()`) and replace the global
quota with a zero record (`qfp.globalQuota = &quota{}`). -/
def Reset (cfg : QfpConfig) (st : QfpState) : QfpState × List QEvent :=
  (⟨[], Quota.zero⟩, resetStatusHandlers cfg ++ createStatistics cfg st)

/-- A sequence of `Accumulate` calls for one peer: the list of verdicts and the
final state. -/
def run (cfg : QfpConfig) (st : QfpState) (identifier : String) :
    List Nat → List Bool × QfpState
  | [] => ([], st)
  | s :: rest =>
    let r := Accumulate cfg st identifier s
    let rr := run cfg r.2 identifier rest
    (r.1 :: rr.1, rr.2)

/-! ## Quota flood preventer: basic lemmas -/

theorem cacheGet_cachePut_self (k : String) (q : Quota) (c : List (String × Quota)) :
    cacheGet k (cachePut k q c) = some q := by
  induction c with
  | nil => simp [cacheGet, cachePut]
  | cons kv rest ih =>
    by_cases h : kv.1 = k
    · simp [cacheGet, cachePut, h]
    · simp [cacheGet, cachePut, h, ih]

theorem globalQuotaReached_setCache (cfg : QfpConfig) (st : QfpState)
    (c : List (String × Quota)) :
    globalQuotaReached cfg { st with cache := c } = globalQuotaReached cfg st := rfl

/-- `accumulate` never modifies the global quota record. -/
theorem accumulate_globalQuota (cfg : QfpConfig) (st : QfpState) (p : String) (s : Nat) :
    (accumulate cfg st p s).2.globalQuota = st.globalQuota := by
  unfold accumulate
  split
  · rfl
  · split
    · rfl
    · dsimp only
      split
      · rfl
      · rfl

/-- Equation: `accumulate` when the global quota is already reached. -/
theorem accumulate_globalReached (cfg : QfpConfig) (st : QfpState) (p : String) (s : Nat)
    (hg : globalQuotaReached cfg st = true) :
    accumulate cfg st p s = (false, st) := by
  unfold accumulate
  simp [hg]

/-- Equation: `accumulate` on a cache miss (`putDefaultQuota` path). -/
theorem accumulate_miss (cfg : QfpConfig) (st : QfpState) (p : String) (s : Nat)
    (hg : globalQuotaReached cfg st = false)
    (hget : cacheGet p st.cache = none) :
    accumulate cfg st p s = (true, putDefaultQuota st p s) := by
  unfold accumulate
  simp [hg, hget]

/-- Equation: `accumulate` on a cache hit within the peer budget. -/
theorem accumulate_found_ok (cfg : QfpConfig) (st : QfpState) (p : String) (s : Nat)
    (q : Quota)
    (hg : globalQuotaReached cfg st = false)
    (hget : cacheGet p st.cache = some q)
    (h1 : (q.numReceivedMessages + 1) % U32 ≤ cfg.maxMessagesPerPeer)
    (h2 : (q.sizeReceivedMessages + s) % U64 ≤ cfg.maxSizePerPeer) :
    accumulate cfg st p s =
      (true,
        { st with
          cache := cachePut p
            ⟨(q.numReceivedMessages + 1) % U32, (q.sizeReceivedMessages + s) % U64,
             (q.numProcessedMessages + 1) % U32, (q.sizeProcessedMessages + s) % U64⟩
            st.cache }) := by
  unfold accumulate
  simp only [hg, Bool.false_eq_true, if_false, hget]
  rw [if_neg]
  push_neg
  exact ⟨h1, h2⟩

/-- Equation: `accumulate` on a cache hit that exceeds the peer budget.  The
received counters of the cached record are still updated (pointer aliasing in
the source), the processed counters are not. -/
theorem accumulate_found_reject (cfg : QfpConfig) (st : QfpState) (p : String) (s : Nat)
    (q : Quota)
    (hg : globalQuotaReached cfg st = false)
    (hget : cacheGet p st.cache = some q)
    (hover : cfg.maxMessagesPerPeer < (q.numReceivedMessages + 1) % U32 ∨
      cfg.maxSizePerPeer < (q.sizeReceivedMessages + s) % U64) :
    accumulate cfg st p s =
      (false,
        { st with
          cache := cachePut p
            ⟨(q.numReceivedMessages + 1) % U32, (q.sizeReceivedMessages + s) % U64,
             q.numProcessedMessages, q.sizeProcessedMessages⟩
            st.cache }) := by
  unfold accumulate
  simp only [hg, Bool.false_eq_true, if_false, hget]
  rw [if_pos hover]

/-- From a state whose cached record for `p` still has room for all remaining
calls, every call in the sequence is admitted. -/
theorem run_all_true_aux (sizes : List Nat) :
    ∀ (cfg : QfpConfig) (st : QfpState) (p : String) (q : Quota),
      globalQuotaReached cfg st = false →
      cacheGet p st.cache = some q →
      q.numReceivedMessages + sizes.length ≤ cfg.maxMessagesPerPeer →
      q.sizeReceivedMessages + sizes.sum ≤ cfg.maxSizePerPeer →
      cfg.maxMessagesPerPeer < U32 → cfg.maxSizePerPeer < U64 →
      (run cfg st p sizes).1.all (fun b => b) = true := by
  induction sizes with
  | nil => intro cfg st p q _ _ _ _ _ _; rfl
  | cons s rest ih =>
    intro cfg st p q hg hget hlen hsum hu32 hu64
    simp only [List.length_cons, List.sum_cons] at hlen hsum
    have hn1 : q.numReceivedMessages + 1 ≤ cfg.maxMessagesPerPeer := by omega
    have hs1 : q.sizeReceivedMessages + s ≤ cfg.maxSizePerPeer := by omega
    have hmod1 : (q.numReceivedMessages + 1) % U32 = q.numReceivedMessages + 1 :=
      Nat.mod_eq_of_lt (lt_of_le_of_lt hn1 hu32)
    have hmod2 : (q.sizeReceivedMessages + s) % U64 = q.sizeReceivedMessages + s :=
      Nat.mod_eq_of_lt (lt_of_le_of_lt hs1 hu64)
    have hacc := accumulate_found_ok cfg st p s q hg hget
      (by rw [hmod1]; exact hn1) (by rw [hmod2]; exact hs1)
    rw [hmod1, hmod2] at hacc
    simp only [run, Accumulate, hacc, List.all_cons, Bool.true_and]
    exact ih cfg _ p _ (by rw [globalQuotaReached_setCache]; exact hg)
      (cacheGet_cachePut_self p _ st.cache) (by dsimp only; omega)
      (by dsimp only; omega) hu32 hu64

/-- C1: on a freshly constructed quota flood preventer, a sequence of
`Accumulate(p, s_i)` calls for one peer `p` with no interleaved
`AccumulateGlobal` calls is admitted in full whenever the number of calls is
at most `maxMessagesPerPeer` and the total size is at most `maxSizePerPeer`:
every call in the sequence returns `true`. -/
theorem C1_fresh_within_budget_all_admitted (cfg : QfpConfig) (p : String)
    (sizes : List Nat)
    (hwf : cfg.Wf)
    (hlen : sizes.length ≤ cfg.maxMessagesPerPeer)
    (hsum : sizes.sum ≤ cfg.maxSizePerPeer) :
    (run cfg freshQfpState p sizes).1.all (fun b => b) = true := by
  obtain ⟨-, hu32, hu64, -, -⟩ := hwf
  cases sizes with
  | nil => rfl
  | cons s rest =>
    have hg : globalQuotaReached cfg freshQfpState = false := by
      simp [globalQuotaReached, freshQfpState, Quota.zero]
    have hget : cacheGet p freshQfpState.cache = none := rfl
    simp only [List.length_cons] at hlen
    simp only [List.sum_cons] at hsum
    simp only [run, Accumulate, accumulate_miss cfg freshQfpState p s hg hget,
      List.all_cons, Bool.true_and]
    exact run_all_true_aux rest cfg _ p ⟨1, s, 1, s⟩
      (by simp [globalQuotaReached, putDefaultQuota, freshQfpState, Quota.zero])
      (cacheGet_cachePut_self p _ _) (by dsimp only; omega)
      (by dsimp only; omega) hu32 hu64

/-- Witness for C1: a fresh preventer with limits `(3, 100, 10, 1000)` admits
the two-call sequence `[3, 4]` in full. -/
theorem C1_witness :
    (run ⟨3, 100, 10, 1000, []⟩ freshQfpState "p" [3, 4]).1.all (fun b => b) = true :=
  C1_fresh_within_budget_all_admitted ⟨3, 100, 10, 1000, []⟩ "p" [3, 4]
    (by constructor <;> simp [NewQuotaFloodPreventerOk, U32, U64])
    (by decide) (by decide)

/-- True when the cached record for `p` (if any) can absorb `n` further
messages totalling `σ` bytes without wrapping its `uint32` received-message
counter or its `uint64` received-byte counter. -/
def receivedHeadroom (st : QfpState) (p : String) (n σ : Nat) : Bool :=
  match cacheGet p st.cache with
  | some q =>
    decide (q.numReceivedMessages + n < U32) && decide (q.sizeReceivedMessages + σ < U64)
  | none => true

/-- Once the global quota is reached, every further `Accumulate` call is
rejected (plain `Accumulate` never modifies the global record). -/
theorem run_all_false_of_global (sizes : List Nat) :
    ∀ (cfg : QfpConfig) (st : QfpState) (p : String),
      globalQuotaReached cfg st = true →
      (run cfg st p sizes).1.all (fun b => !b) = true := by
  induction sizes with
  | nil => intro cfg st p _; rfl
  | cons s rest ih =>
    intro cfg st p hg
    simp only [run, Accumulate, accumulate_globalReached cfg st p s hg, List.all_cons,
      Bool.not_false, Bool.true_and]
    exact ih cfg st p hg

/-- Once the cached record for `p` is over one of the per-peer budgets, every
further `Accumulate` call for `p` is rejected, as long as the received
counters do not wrap around their integer widths. -/
theorem run_all_false_of_over (sizes : List Nat) :
    ∀ (cfg : QfpConfig) (st : QfpState) (p : String) (q : Quota),
      globalQuotaReached cfg st = false →
      cacheGet p st.cache = some q →
      (cfg.maxMessagesPerPeer < q.numReceivedMessages ∨
        cfg.maxSizePerPeer < q.sizeReceivedMessages) →
      q.numReceivedMessages + sizes.length < U32 →
      q.sizeReceivedMessages + sizes.sum < U64 →
      (run cfg st p sizes).1.all (fun b => !b) = true := by
  induction sizes with
  | nil => intro cfg st p q _ _ _ _ _; rfl
  | cons s rest ih =>
    intro cfg st p q hg hget hover hn hs
    simp only [List.length_cons] at hn
    simp only [List.sum_cons] at hs
    have hmod1 : (q.numReceivedMessages + 1) % U32 = q.numReceivedMessages + 1 :=
      Nat.mod_eq_of_lt (by omega)
    have hmod2 : (q.sizeReceivedMessages + s) % U64 = q.sizeReceivedMessages + s :=
      Nat.mod_eq_of_lt (by omega)
    have hover' : cfg.maxMessagesPerPeer < q.numReceivedMessages + 1 ∨
        cfg.maxSizePerPeer < q.sizeReceivedMessages + s :=
      hover.imp (fun h => by omega) (fun h => by omega)
    have hacc := accumulate_found_reject cfg st p s q hg hget
      (by rw [hmod1, hmod2]; exact hover')
    rw [hmod1, hmod2] at hacc
    simp only [run, Accumulate, hacc, List.all_cons, Bool.not_false, Bool.true_and]
    exact ih cfg _ p _ (by rw [globalQuotaReached_setCache]; exact hg)
      (cacheGet_cachePut_self p _ st.cache)
      (hover'.imp (fun h => by dsimp only; omega) (fun h => by dsimp only; omega))
      (by dsimp only; omega) (by dsimp only; omega)

/-- Counterexample for C2 as stated.  With limits
`maxMessagesPerPeer = 10`, `maxSizePerPeer = 5` (a configuration the
constructor accepts), the three-call sequence
`Accumulate(p, 2^64 - 1); Accumulate(p, 0); Accumulate(p, 1)` returns
`true, false, true` with no `Reset` in between: the second call is rejected
(received bytes `2^64 - 1` exceed the budget), yet the third call is admitted
again because the `uint64` received-byte counter wraps around to `0`.  This
refutes the claim that once a call returns `false`, every subsequent call for
the same peer returns `false` until `Reset`. -/
theorem C2_counterexample :
    NewQuotaFloodPreventerOk ⟨10, 5, 10, 10, []⟩ = true ∧
    (run ⟨10, 5, 10, 10, []⟩ freshQfpState "p" [18446744073709551615, 0, 1]).1 =
      [true, false, true] := by
  decide

/-- C2 (amended): once an `Accumulate(p, s)` call returns `false`, every
subsequent `Accumulate(p, s')` call returns `false` until `Reset`, *provided*
the peer's received counters do not wrap around during the subsequent calls
(fewer than `2^32` received messages and `2^64` received bytes accumulate for
`p` in total). -/
theorem C2_rejected_stays_rejected (cfg : QfpConfig) (st : QfpState) (p : String)
    (s : Nat) (rest : List Nat)
    (hfalse : (Accumulate cfg st p s).1 = false)
    (hroom : receivedHeadroom (Accumulate cfg st p s).2 p rest.length rest.sum = true) :
    (run cfg (Accumulate cfg st p s).2 p rest).1.all (fun b => !b) = true := by
  by_cases hg : globalQuotaReached cfg st = true
  · have hacc := accumulate_globalReached cfg st p s hg
    rw [Accumulate] at hfalse hroom ⊢
    rw [hacc]
    exact run_all_false_of_global rest cfg st p hg
  · rw [Bool.not_eq_true] at hg
    rcases hget : cacheGet p st.cache with - | q
    · exfalso
      rw [Accumulate, accumulate_miss cfg st p s hg hget] at hfalse
      simp at hfalse
    · by_cases hover : cfg.maxMessagesPerPeer < (q.numReceivedMessages + 1) % U32 ∨
        cfg.maxSizePerPeer < (q.sizeReceivedMessages + s) % U64
      · have hacc := accumulate_found_reject cfg st p s q hg hget hover
        rw [Accumulate] at hroom ⊢
        rw [hacc] at hroom ⊢
        have hget' := cacheGet_cachePut_self p
          (⟨(q.numReceivedMessages + 1) % U32, (q.sizeReceivedMessages + s) % U64,
            q.numProcessedMessages, q.sizeProcessedMessages⟩ : Quota) st.cache
        rw [receivedHeadroom] at hroom
        rw [hget'] at hroom
        simp only [Bool.and_eq_true, decide_eq_true_eq] at hroom
        exact run_all_false_of_over rest cfg _ p _
          (by rw [globalQuotaReached_setCache]; exact hg) hget' hover hroom.1 hroom.2
      · exfalso
        push_neg at hover
        rw [Accumulate, accumulate_found_ok cfg st p s q hg hget hover.1 hover.2] at hfalse
        simp at hfalse

/-- Witness for the amended C2: with limits `(1, 1, 5, 5)` and a cached record
`{5, 0, 1, 0}` for `p`, the call `Accumulate(p, 0)` is rejected, and the two
subsequent calls `[0, 0]` are rejected as well. -/
theorem C2_witness :
    (run ⟨1, 1, 5, 5, []⟩
      (Accumulate ⟨1, 1, 5, 5, []⟩ ⟨[("p", ⟨5, 0, 1, 0⟩)], Quota.zero⟩ "p" 0).2
      "p" [0, 0]).1.all (fun b => !b) = true :=
  C2_rejected_stays_rejected ⟨1, 1, 5, 5, []⟩ ⟨[("p", ⟨5, 0, 1, 0⟩)], Quota.zero⟩
    "p" 0 [0, 0] (by decide) (by decide)

/-- C3: `Reset` clears the quota cache, zeroes the global quota record and
calls `ResetStatistics` on every registered status handler; immediately after
`Reset`, the next `Accumulate(p, s)` call returns `true` for every peer `p`
and every size `s`. -/
theorem C3_reset (cfg : QfpConfig) (st : QfpState) :
    (Reset cfg st).1.cache = [] ∧
    (Reset cfg st).1.globalQuota = Quota.zero ∧
    (∀ h ∈ cfg.statusHandlers, QEvent.resetStatistics h ∈ (Reset cfg st).2) ∧
    (∀ (p : String) (s : Nat), (Accumulate cfg (Reset cfg st).1 p s).1 = true) := by
  refine ⟨rfl, rfl, ?_, ?_⟩
  · intro h hh
    exact List.mem_append_left _ (List.mem_map_of_mem QEvent.resetStatistics hh)
  · intro p s
    have hg : globalQuotaReached cfg (Reset cfg st).1 = false := by
      simp [globalQuotaReached, Reset, Quota.zero]
    rw [Accumulate, accumulate_miss cfg (Reset cfg st).1 p s hg rfl]

/-! ## C4: the received-vs-processed invariant -/

/-- The per-record invariant of the spec: received counters dominate processed
counters. -/
def quotaInvB (q : Quota) : Bool :=
  decide (q.numProcessedMessages ≤ q.numReceivedMessages) &&
  decide (q.sizeProcessedMessages ≤ q.sizeReceivedMessages)

/-- The cache-wide invariant: every cached record satisfies `quotaInvB`. -/
def cacheInv (st : QfpState) : Bool :=
  st.cache.all (fun kv => quotaInvB kv.2)

theorem cacheGet_all (f : Quota → Bool) (p : String) (q : Quota) :
    ∀ c : List (String × Quota),
      c.all (fun kv => f kv.2) = true → cacheGet p c = some q → f q = true := by
  intro c
  induction c with
  | nil => intro _ h; exact absurd h (by simp [cacheGet])
  | cons kv rest ih =>
    intro hall hget
    simp only [List.all_cons, Bool.and_eq_true] at hall
    rw [cacheGet] at hget
    by_cases hk : kv.1 = p
    · rw [if_pos hk] at hget
      cases hget
      exact hall.1
    · rw [if_neg hk] at hget
      exact ih hall.2 hget

theorem cachePut_all (f : Quota → Bool) (p : String) (q : Quota) :
    ∀ c : List (String × Quota),
      c.all (fun kv => f kv.2) = true → f q = true →
      (cachePut p q c).all (fun kv => f kv.2) = true := by
  intro c
  induction c with
  | nil => intro _ hq; simp [cachePut, hq]
  | cons kv rest ih =>
    intro hall hq
    simp only [List.all_cons, Bool.and_eq_true] at hall
    rw [cachePut]
    by_cases hk : kv.1 = p
    · rw [if_pos hk]
      simp only [List.all_cons, Bool.and_eq_true]
      exact ⟨hq, hall.2⟩
    · rw [if_neg hk]
      simp only [List.all_cons, Bool.and_eq_true]
      exact ⟨hall.1, ih hall.2 hq⟩

/-- True when one `accumulate(p, s)` call cannot wrap any counter of the
cached record for `p`. -/
def accNoWrap (st : QfpState) (p : String) (s : Nat) : Bool :=
  match cacheGet p st.cache with
  | some q =>
    decide (q.numReceivedMessages + 1 < U32) && decide (q.sizeReceivedMessages + s < U64) &&
    decide (q.numProcessedMessages + 1 < U32) && decide (q.sizeProcessedMessages + s < U64)
  | none => true

/-- `accumulate` preserves the cache invariant when its increments do not
overflow. -/
theorem accumulate_cacheInv (cfg : QfpConfig) (st : QfpState) (p : String) (s : Nat)
    (hinv : cacheInv st = true) (hnw : accNoWrap st p s = true) :
    cacheInv (accumulate cfg st p s).2 = true := by
  by_cases hg : globalQuotaReached cfg st = true
  · rw [accumulate_globalReached cfg st p s hg]
    exact hinv
  · rw [Bool.not_eq_true] at hg
    rcases hget : cacheGet p st.cache with - | q
    · rw [accumulate_miss cfg st p s hg hget]
      refine cachePut_all _ p _ st.cache hinv ?_
      simp [quotaInvB]
    · have hq : quotaInvB q = true := cacheGet_all _ p q st.cache hinv hget
      simp only [quotaInvB, Bool.and_eq_true, decide_eq_true_eq] at hq
      rw [accNoWrap, hget] at hnw
      simp only [Bool.and_eq_true, decide_eq_true_eq] at hnw
      obtain ⟨⟨⟨hw1, hw2⟩, hw3⟩, hw4⟩ := hnw
      have hmod1 : (q.numReceivedMessages + 1) % U32 = q.numReceivedMessages + 1 :=
        Nat.mod_eq_of_lt hw1
      have hmod2 : (q.sizeReceivedMessages + s) % U64 = q.sizeReceivedMessages + s :=
        Nat.mod_eq_of_lt hw2
      have hmod3 : (q.numProcessedMessages + 1) % U32 = q.numProcessedMessages + 1 :=
        Nat.mod_eq_of_lt hw3
      have hmod4 : (q.sizeProcessedMessages + s) % U64 = q.sizeProcessedMessages + s :=
        Nat.mod_eq_of_lt hw4
      by_cases hover : cfg.maxMessagesPerPeer < (q.numReceivedMessages + 1) % U32 ∨
        cfg.maxSizePerPeer < (q.sizeReceivedMessages + s) % U64
      · rw [accumulate_found_reject cfg st p s q hg hget hover]
        refine cachePut_all _ p _ st.cache hinv ?_
        simp only [quotaInvB, Bool.and_eq_true, decide_eq_true_eq]
        rw [hmod1, hmod2]
        exact ⟨by omega, by omega⟩
      · push_neg at hover
        rw [accumulate_found_ok cfg st p s q hg hget hover.1 hover.2]
        refine cachePut_all _ p _ st.cache hinv ?_
        simp only [quotaInvB, Bool.and_eq_true, decide_eq_true_eq]
        rw [hmod1, hmod2, hmod3, hmod4]
        exact ⟨by omega, by omega⟩

/-- Counterexample for C4 as stated.  With `maxMessagesPerPeer = 1` and
`maxSizePerPeer = 2^64 - 1` (a configuration the constructor accepts), the
sequence `Accumulate(p, 2^64 - 1); Accumulate(p, 1)` leaves the cached record
at `{2, 0, 1, 2^64 - 1}`: the second (rejected) call wraps the `uint64`
received-byte counter to `0` while the processed-byte counter keeps
`2^64 - 1`, so `received_bytes ≥ processed_bytes` fails. -/
theorem C4_counterexample :
    NewQuotaFloodPreventerOk ⟨1, 18446744073709551615, 10, 10, []⟩ = true ∧
    cacheInv ((run ⟨1, 18446744073709551615, 10, 10, []⟩ freshQfpState "p"
      [18446744073709551615, 1]).2) = false := by
  decide

/-- C4 (amended): every record of the quota cache satisfies
`received_messages ≥ processed_messages` and `received_bytes ≥
processed_bytes` in the fresh state, and the invariant is preserved by
`Accumulate`, `AccumulateGlobal` and `Reset` *provided* the call's counter
increments do not wrap around the `uint32`/`uint64` counter widths. -/
theorem C4_cache_invariant_preserved (cfg : QfpConfig) (st : QfpState) (p : String)
    (s : Nat) (hinv : cacheInv st = true) (hnw : accNoWrap st p s = true) :
    cacheInv freshQfpState = true ∧
    cacheInv (Accumulate cfg st p s).2 = true ∧
    cacheInv (AccumulateGlobal cfg st p s).2 = true ∧
    cacheInv (Reset cfg st).1 = true := by
  refine ⟨rfl, accumulate_cacheInv cfg st p s hinv hnw, ?_, rfl⟩
  rw [AccumulateGlobal]
  have h1 := accumulate_cacheInv cfg
    { st with globalQuota :=
        { st.globalQuota with
          numReceivedMessages := (st.globalQuota.numReceivedMessages + 1) % U32
          sizeReceivedMessages := (st.globalQuota.sizeReceivedMessages + s) % U64 } }
    p s hinv hnw
  dsimp only
  split
  · exact h1
  · exact h1

/-- Witness for the amended C4: limits `(2, 10, 5, 100)`, cached record
`{1, 3, 1, 3}` for `p`, one call of size `4`. -/
theorem C4_witness :
    cacheInv freshQfpState = true ∧
    cacheInv (Accumulate ⟨2, 10, 5, 100, []⟩
      ⟨[("p", ⟨1, 3, 1, 3⟩)], Quota.zero⟩ "p" 4).2 = true ∧
    cacheInv (AccumulateGlobal ⟨2, 10, 5, 100, []⟩
      ⟨[("p", ⟨1, 3, 1, 3⟩)], Quota.zero⟩ "p" 4).2 = true ∧
    cacheInv (Reset ⟨2, 10, 5, 100, []⟩ ⟨[("p", ⟨1, 3, 1, 3⟩)], Quota.zero⟩).1 = true :=
  C4_cache_invariant_preserved ⟨2, 10, 5, 100, []⟩
    ⟨[("p", ⟨1, 3, 1, 3⟩)], Quota.zero⟩ "p" 4 (by decide) (by decide)

/-! ## C5: first message of an unknown peer -/

/-- Counterexample for C5 as stated.  With `maxMessagesPerPeer = 10` and
`maxSizePerPeer = 1` (a configuration the constructor accepts), an unknown
peer's first call of size `2^64 - 1` (far above the byte budget) is admitted,
and the *subsequent* call of size `1` is admitted as well — the `uint64`
received-byte counter wraps around to `0` — refuting the claim that every
subsequent call returns `false`. -/
theorem C5_counterexample :
    NewQuotaFloodPreventerOk ⟨10, 1, 10, 10, []⟩ = true ∧
    1 < 18446744073709551615 ∧
    (run ⟨10, 1, 10, 10, []⟩ freshQfpState "p" [18446744073709551615, 1]).1 =
      [true, true] := by
  decide

/-- C5 (amended): for a peer `p` not present in the quota cache, the first
`Accumulate(p, size)` call returns `true` and inserts the record
`{1, size, 1, size}`, even when `size` exceeds `maxSizePerPeer`; in that
oversized case every subsequent call is rejected *provided* the peer's
received counters do not wrap around their `uint32`/`uint64` widths during
the subsequent calls. -/
theorem C5_unknown_peer_first_admitted (cfg : QfpConfig) (st : QfpState) (p : String)
    (size : Nat) (rest : List Nat)
    (hg : globalQuotaReached cfg st = false)
    (hget : cacheGet p st.cache = none) :
    (Accumulate cfg st p size).1 = true ∧
    cacheGet p (Accumulate cfg st p size).2.cache = some ⟨1, size, 1, size⟩ ∧
    (cfg.maxSizePerPeer < size →
      receivedHeadroom (Accumulate cfg st p size).2 p rest.length rest.sum = true →
      (run cfg (Accumulate cfg st p size).2 p rest).1.all (fun b => !b) = true) := by
  rw [Accumulate, accumulate_miss cfg st p size hg hget]
  refine ⟨rfl, cacheGet_cachePut_self p _ st.cache, ?_⟩
  intro hover hroom
  rw [receivedHeadroom] at hroom
  rw [putDefaultQuota] at hroom ⊢
  rw [cacheGet_cachePut_self p _ st.cache] at hroom
  simp only [Bool.and_eq_true, decide_eq_true_eq] at hroom
  exact run_all_false_of_over rest cfg _ p _
    (by rw [globalQuotaReached_setCache]; exact hg)
    (cacheGet_cachePut_self p _ st.cache) (Or.inr hover) hroom.1 hroom.2

/-- Witness for the amended C5: limits `(10, 1, 10, 10)`, empty cache, first
size `7 > 1`, then two subsequent calls `[2, 3]`. -/
theorem C5_witness :
    (Accumulate ⟨10, 1, 10, 10, []⟩ freshQfpState "p" 7).1 = true ∧
    cacheGet "p" (Accumulate ⟨10, 1, 10, 10, []⟩ freshQfpState "p" 7).2.cache =
      some ⟨1, 7, 1, 7⟩ ∧
    ((⟨10, 1, 10, 10, []⟩ : QfpConfig).maxSizePerPeer < 7 →
      receivedHeadroom (Accumulate ⟨10, 1, 10, 10, []⟩ freshQfpState "p" 7).2 "p"
        ([2, 3] : List Nat).length ([2, 3] : List Nat).sum = true →
      (run ⟨10, 1, 10, 10, []⟩ (Accumulate ⟨10, 1, 10, 10, []⟩ freshQfpState "p" 7).2
        "p" [2, 3]).1.all (fun b => !b) = true) :=
  C5_unknown_peer_first_admitted ⟨10, 1, 10, 10, []⟩ freshQfpState "p" 7 [2, 3]
    (by decide) (by decide)

/-! ## C10: a rejected call still mutates the cached received counters -/

/-- C10: when an `Accumulate(p, s)` call is rejected because the peer budget
is exceeded (global quota not reached, record present, post-increment budget
test fails), the cached record for `p` still ends up with
`received_messages` incremented by `1` and `received_bytes` incremented by `s`
(in `uint32`/`uint64` arithmetic), while its processed counters are unchanged:
the cached record is a shared object mutated in place even though it is not
re-inserted. -/
theorem C10_rejected_call_still_counted (cfg : QfpConfig) (st : QfpState) (p : String)
    (s : Nat) (q : Quota)
    (hg : globalQuotaReached cfg st = false)
    (hget : cacheGet p st.cache = some q)
    (hover : cfg.maxMessagesPerPeer < (q.numReceivedMessages + 1) % U32 ∨
      cfg.maxSizePerPeer < (q.sizeReceivedMessages + s) % U64) :
    (Accumulate cfg st p s).1 = false ∧
    cacheGet p (Accumulate cfg st p s).2.cache =
      some ⟨(q.numReceivedMessages + 1) % U32, (q.sizeReceivedMessages + s) % U64,
            q.numProcessedMessages, q.sizeProcessedMessages⟩ := by
  rw [Accumulate, accumulate_found_reject cfg st p s q hg hget hover]
  exact ⟨rfl, cacheGet_cachePut_self p _ st.cache⟩

/-- Witness for C10: limits `(1, 10, 5, 100)`, cached record `{1, 3, 1, 3}`
for `p`, rejected call of size `4`: the record becomes `{2, 7, 1, 3}`. -/
theorem C10_witness :
    (Accumulate ⟨1, 10, 5, 100, []⟩ ⟨[("p", ⟨1, 3, 1, 3⟩)], Quota.zero⟩ "p" 4).1 =
      false ∧
    cacheGet "p" (Accumulate ⟨1, 10, 5, 100, []⟩
      ⟨[("p", ⟨1, 3, 1, 3⟩)], Quota.zero⟩ "p" 4).2.cache =
      some ⟨(1 + 1) % U32, (3 + 4) % U64, 1, 3⟩ :=
  C10_rejected_call_still_counted ⟨1, 10, 5, 100, []⟩
    ⟨[("p", ⟨1, 3, 1, 3⟩)], Quota.zero⟩ "p" 4 ⟨1, 3, 1, 3⟩
    (by decide) (by decide) (by decide)

/-! ## Pool cleaner: data model

Source: `txsPoolsCleaner`.  The pending map `mapTxsRounds` is embedded as an
association list from transaction hash to `TxInfo`; the sub-caches
(`storage.Cacher` handles stored in `txInfo.txStore`) are embedded as an
association list from a store identifier to the list of hashes the store
holds.  `rounder.Index()` is read once per pass here (`curRound`); the claims
describe a single pass against one current round.  The constant
`process.MaxRoundsToKeepUnprocessedTransactions` is the parameter
`maxRounds`. -/

/-- The `txInfo` record of the source: arrival round (`int64`, embedded as
`Int`), sender and receiver shard ids, tx flavor, and the sub-cache handle
(embedded as a store identifier). -/
structure TxInfo where
  round : Int
  senderShardID : Nat
  receiverShardID : Nat
  txType : Int
  storeId : Nat
deriving DecidableEq, Repr

/-- An invocation of `txStore.Remove(hash)` performed by the reaper pass. -/
structure RemoveEvent where
  storeId : Nat
  hash : String
deriving DecidableEq, Repr

/-- Contents of the sub-cache with the given identifier (`[]` when the
identifier is unknown). -/
def storeGet (stores : List (Nat × List String)) (sid : Nat) : List String :=
  match stores with
  | [] => []
  | (sid', hs) :: rest => if sid' = sid then hs else storeGet rest sid

/-- `txStore.Remove(hash)`: drop the hash from the sub-cache with the given
identifier. -/
def storeRemove (stores : List (Nat × List String)) (sid : Nat) (h : String) :
    List (Nat × List String) :=
  stores.map (fun s => if s.1 = sid then (s.1, s.2.filter (fun x => x != h)) else s)

/-- Result of one reaper pass: the surviving pending map, the updated
sub-caches, the number of cleaned transactions (`numTxsCleaned`) and the
`Remove` calls issued. -/
structure CleanResult where
  map : List (String × TxInfo)
  stores : List (Nat × List String)
  numCleaned : Nat
  events : List RemoveEvent
deriving DecidableEq, Repr

/-- One pass of `cleanTxsPoolsIfNeeded`: for each pending record, if its hash
is no longer in its sub-cache, silently drop the record; otherwise keep it
when `curRound - round ≤ maxRounds` and, when the difference exceeds
`maxRounds`, remove the hash from the sub-cache, drop the record and count
the cleanup. -/
def cleanTxsPoolsIfNeeded (maxRounds curRound : Int) :
    List (String × TxInfo) → List (Nat × List String) → CleanResult
  | [], stores => ⟨[], stores, 0, []⟩
  | (h, info) :: rest, stores =>
    if h ∈ storeGet stores info.storeId then
      if curRound - info.round ≤ maxRounds then
        let r := cleanTxsPoolsIfNeeded maxRounds curRound rest stores
        ⟨(h, info) :: r.map, r.stores, r.numCleaned, r.events⟩
      else
        let r := cleanTxsPoolsIfNeeded maxRounds curRound rest
          (storeRemove stores info.storeId h)
        ⟨r.map, r.stores, r.numCleaned + 1, ⟨info.storeId, h⟩ :: r.events⟩
    else
      cleanTxsPoolsIfNeeded maxRounds curRound rest stores

/-! ## Pool cleaner: basic lemmas -/

/-- Every cleanup increment corresponds to exactly one `Remove` call. -/
theorem numCleaned_eq_events_length (maxR cur : Int) :
    ∀ (entries : List (String × TxInfo)) (stores : List (Nat × List String)),
      (cleanTxsPoolsIfNeeded maxR cur entries stores).numCleaned =
        (cleanTxsPoolsIfNeeded maxR cur entries stores).events.length := by
  intro entries
  induction entries with
  | nil => intro stores; rfl
  | cons e rest ih =>
    intro stores
    obtain ⟨h, info⟩ := e
    rw [cleanTxsPoolsIfNeeded]
    by_cases hmem : h ∈ storeGet stores info.storeId
    · rw [if_pos hmem]
      by_cases hfresh : cur - info.round ≤ maxR
      · rw [if_pos hfresh]
        exact ih stores
      · rw [if_neg hfresh]
        simp only [List.length_cons]
        rw [ih (storeRemove stores info.storeId h)]
    · rw [if_neg hmem]
      exact ih stores

/-- The surviving pending records all come from the input pending map. -/
theorem clean_map_subset (maxR cur : Int) :
    ∀ (entries : List (String × TxInfo)) (stores : List (Nat × List String))
      (kv : String × TxInfo),
      kv ∈ (cleanTxsPoolsIfNeeded maxR cur entries stores).map → kv ∈ entries := by
  intro entries
  induction entries with
  | nil => intro stores kv hkv; exact absurd hkv (by simp [cleanTxsPoolsIfNeeded])
  | cons e rest ih =>
    intro stores kv hkv
    obtain ⟨h, info⟩ := e
    rw [cleanTxsPoolsIfNeeded] at hkv
    by_cases hmem : h ∈ storeGet stores info.storeId
    · rw [if_pos hmem] at hkv
      by_cases hfresh : cur - info.round ≤ maxR
      · rw [if_pos hfresh] at hkv
        rcases List.mem_cons.mp hkv with heq | htail
        · exact heq ▸ List.mem_cons_self _ _
        · exact List.mem_cons_of_mem _ (ih stores kv htail)
      · rw [if_neg hfresh] at hkv
        exact List.mem_cons_of_mem _ (ih _ kv hkv)
    · rw [if_neg hmem] at hkv
      exact List.mem_cons_of_mem _ (ih stores kv hkv)

/-- Every `Remove` call issued by a pass names the hash of some input pending
record. -/
theorem clean_events_hash_mem (maxR cur : Int) :
    ∀ (entries : List (String × TxInfo)) (stores : List (Nat × List String))
      (e : RemoveEvent),
      e ∈ (cleanTxsPoolsIfNeeded maxR cur entries stores).events →
      e.hash ∈ entries.map Prod.fst := by
  intro entries
  induction entries with
  | nil => intro stores e he; exact absurd he (by simp [cleanTxsPoolsIfNeeded])
  | cons ent rest ih =>
    intro stores e he
    obtain ⟨h, info⟩ := ent
    rw [cleanTxsPoolsIfNeeded] at he
    by_cases hmem : h ∈ storeGet stores info.storeId
    · rw [if_pos hmem] at he
      by_cases hfresh : cur - info.round ≤ maxR
      · rw [if_pos hfresh] at he
        exact List.mem_cons_of_mem _ (ih stores e he)
      · rw [if_neg hfresh] at he
        rcases List.mem_cons.mp he with heq | htail
        · subst heq
          exact List.mem_cons_self _ _
        · exact List.mem_cons_of_mem _ (ih _ e htail)
    · rw [if_neg hmem] at he
      exact List.mem_cons_of_mem _ (ih stores e he)

/-- Effect of `storeRemove` on a lookup. -/
theorem storeGet_storeRemove (sid sid' : Nat) (h' : String) :
    ∀ stores : List (Nat × List String),
      storeGet (storeRemove stores sid' h') sid =
        if sid' = sid then (storeGet stores sid).filter (fun x => x != h')
        else storeGet stores sid := by
  intro stores
  induction stores with
  | nil => by_cases hs : sid' = sid <;> simp [storeGet, storeRemove, hs]
  | cons s rest ih =>
    rw [storeRemove, List.map_cons]
    by_cases h1 : s.1 = sid'
    · rw [if_pos h1]
      by_cases h2 : sid' = sid
      · have : s.1 = sid := h1.trans h2
        rw [storeGet, if_pos this, if_pos h2, storeGet, if_pos this]
      · have : ¬ s.1 = sid := fun hc => h2 (h1 ▸ hc)
        rw [storeGet, if_neg this, if_neg h2, storeGet, if_neg this]
        rw [storeRemove] at ih
        rw [ih, if_neg h2]
    · rw [if_neg h1]
      rw [storeGet]
      by_cases h2 : s.1 = sid
      · rw [if_pos h2]
        by_cases h3 : sid' = sid
        · exact absurd (h2.trans h3.symm) h1
        · rw [if_neg h3, storeGet, if_pos h2]
      · rw [if_neg h2]
        rw [storeRemove] at ih
        rw [ih]
        by_cases h3 : sid' = sid
        · rw [if_pos h3, if_pos h3, storeGet, if_neg h2]
        · rw [if_neg h3, if_neg h3, storeGet, if_neg h2]

/-- `storeRemove` does not affect membership of any other hash. -/
theorem mem_storeGet_storeRemove_of_ne (stores : List (Nat × List String))
    (sid sid' : Nat) (h' x : String) (hx : x ≠ h') :
    x ∈ storeGet (storeRemove stores sid' h') sid ↔ x ∈ storeGet stores sid := by
  rw [storeGet_storeRemove sid sid' h' stores]
  by_cases h3 : sid' = sid
  · rw [if_pos h3]
    simp [List.mem_filter, hx]
  · rw [if_neg h3]

/-- `storeRemove` removes the hash from the named sub-cache. -/
theorem not_mem_storeGet_storeRemove_self (stores : List (Nat × List String))
    (sid : Nat) (h' : String) :
    h' ∉ storeGet (storeRemove stores sid h') sid := by
  rw [storeGet_storeRemove sid sid h' stores, if_pos rfl]
  simp [List.mem_filter]

/-- A pass only ever removes hashes from the sub-caches. -/
theorem clean_stores_subset (maxR cur : Int) :
    ∀ (entries : List (String × TxInfo)) (stores : List (Nat × List String))
      (sid : Nat) (x : String),
      x ∈ storeGet (cleanTxsPoolsIfNeeded maxR cur entries stores).stores sid →
      x ∈ storeGet stores sid := by
  intro entries
  induction entries with
  | nil => intro stores sid x hx; exact hx
  | cons ent rest ih =>
    intro stores sid x hx
    obtain ⟨h, info⟩ := ent
    rw [cleanTxsPoolsIfNeeded] at hx
    by_cases hmem : h ∈ storeGet stores info.storeId
    · rw [if_pos hmem] at hx
      by_cases hfresh : cur - info.round ≤ maxR
      · rw [if_pos hfresh] at hx
        exact ih stores sid x hx
      · rw [if_neg hfresh] at hx
        have := ih _ sid x hx
        rw [storeGet_storeRemove sid info.storeId h stores] at this
        by_cases h3 : info.storeId = sid
        · rw [if_pos h3] at this
          exact (List.mem_filter.mp this).1
        · rw [if_neg h3] at this
          exact this
    · rw [if_neg hmem] at hx
      exact ih stores sid x hx

/-- A pass leaves membership of `x` in every sub-cache unchanged when no
pending record is keyed by `x`. -/
theorem mem_storeGet_clean_of_not_key (maxR cur : Int) (x : String) :
    ∀ (entries : List (String × TxInfo)) (stores : List (Nat × List String))
      (sid : Nat),
      x ∉ entries.map Prod.fst →
      (x ∈ storeGet (cleanTxsPoolsIfNeeded maxR cur entries stores).stores sid ↔
        x ∈ storeGet stores sid) := by
  intro entries
  induction entries with
  | nil => intro stores sid _; exact Iff.rfl
  | cons ent rest ih =>
    intro stores sid hkey
    obtain ⟨h, info⟩ := ent
    simp only [List.map_cons, List.mem_cons, not_or] at hkey
    rw [cleanTxsPoolsIfNeeded]
    by_cases hmem : h ∈ storeGet stores info.storeId
    · rw [if_pos hmem]
      by_cases hfresh : cur - info.round ≤ maxR
      · rw [if_pos hfresh]
        exact ih stores sid (by simpa using hkey.2)
      · rw [if_neg hfresh]
        rw [ih _ sid (by simpa using hkey.2)]
        exact mem_storeGet_storeRemove_of_ne stores sid info.storeId h x hkey.1
    · rw [if_neg hmem]
      exact ih stores sid (by simpa using hkey.2)

/-- Surviving keys all come from the input pending map. -/
theorem clean_keys_subset (maxR cur : Int) (entries : List (String × TxInfo))
    (stores : List (Nat × List String)) (x : String)
    (hx : x ∈ (cleanTxsPoolsIfNeeded maxR cur entries stores).map.map Prod.fst) :
    x ∈ entries.map Prod.fst := by
  rcases List.mem_map.mp hx with ⟨kv, hkv, rfl⟩
  exact List.mem_map_of_mem Prod.fst (clean_map_subset maxR cur entries stores kv hkv)

/-- C6: in one reaper pass, a pending record whose hash is still present in
its sub-cache is evicted — dropped from the pending map, removed from the
sub-cache, with a `Remove` call issued — exactly when
`curRound - round > maxRounds`; when `curRound - round ≤ maxRounds` the
record survives unchanged and the hash stays in the sub-cache. -/
theorem C6_stale_records_evicted (maxR cur : Int) (entries : List (String × TxInfo))
    (stores : List (Nat × List String)) (h : String) (info : TxInfo)
    (hnd : (entries.map Prod.fst).Nodup)
    (hmem : (h, info) ∈ entries)
    (hin : h ∈ storeGet stores info.storeId) :
    (maxR < cur - info.round →
      h ∉ (cleanTxsPoolsIfNeeded maxR cur entries stores).map.map Prod.fst ∧
      h ∉ storeGet (cleanTxsPoolsIfNeeded maxR cur entries stores).stores info.storeId ∧
      (⟨info.storeId, h⟩ : RemoveEvent) ∈
        (cleanTxsPoolsIfNeeded maxR cur entries stores).events) ∧
    (cur - info.round ≤ maxR →
      (h, info) ∈ (cleanTxsPoolsIfNeeded maxR cur entries stores).map ∧
      h ∈ storeGet (cleanTxsPoolsIfNeeded maxR cur entries stores).stores info.storeId) := by
  induction entries generalizing stores with
  | nil => exact absurd hmem (List.not_mem_nil _)
  | cons ent rest ih =>
    obtain ⟨h0, info0⟩ := ent
    simp only [List.map_cons, List.nodup_cons] at hnd
    rcases List.mem_cons.mp hmem with heq | htail
    · rw [Prod.mk.injEq] at heq
      obtain ⟨rfl, rfl⟩ := heq
      rw [cleanTxsPoolsIfNeeded, if_pos hin]
      constructor
      · intro hstale
        have hfresh : ¬ cur - info.round ≤ maxR := by omega
        rw [if_neg hfresh]
        dsimp only
        refine ⟨?_, ?_, List.mem_cons_self _ _⟩
        · intro hk
          exact hnd.1 (clean_keys_subset maxR cur rest _ h hk)
        · intro hs
          exact not_mem_storeGet_storeRemove_self stores info.storeId h
            (clean_stores_subset maxR cur rest _ info.storeId h hs)
      · intro hfresh
        rw [if_pos hfresh]
        dsimp only
        refine ⟨List.mem_cons_self _ _, ?_⟩
        rw [mem_storeGet_clean_of_not_key maxR cur h rest stores info.storeId hnd.1]
        exact hin
    · have hne : h ≠ h0 := by
        intro hcon
        exact hnd.1 (hcon ▸ List.mem_map_of_mem Prod.fst htail)
      rw [cleanTxsPoolsIfNeeded]
      by_cases hm0 : h0 ∈ storeGet stores info0.storeId
      · rw [if_pos hm0]
        by_cases hf0 : cur - info0.round ≤ maxR
        · rw [if_pos hf0]
          dsimp only
          have IH := ih stores hnd.2 htail hin
          constructor
          · intro hstale
            obtain ⟨hk, hst, hev⟩ := IH.1 hstale
            refine ⟨?_, hst, hev⟩
            simp only [List.map_cons, List.mem_cons, not_or]
            exact ⟨hne, fun hc => hk hc⟩
          · intro hfresh
            obtain ⟨hk, hst⟩ := IH.2 hfresh
            exact ⟨List.mem_cons_of_mem _ hk, hst⟩
        · rw [if_neg hf0]
          dsimp only
          have hin' : h ∈ storeGet (storeRemove stores info0.storeId h0) info.storeId :=
            (mem_storeGet_storeRemove_of_ne stores info.storeId info0.storeId h0 h
              hne).mpr hin
          have IH := ih (storeRemove stores info0.storeId h0) hnd.2 htail hin'
          constructor
          · intro hstale
            obtain ⟨hk, hst, hev⟩ := IH.1 hstale
            exact ⟨hk, hst, List.mem_cons_of_mem _ hev⟩
          · intro hfresh
            exact IH.2 hfresh
      · rw [if_neg hm0]
        exact ih stores hnd.2 htail hin

/-- Witness for C6: one pending record `("a", round 1, store 0)` whose hash is
in its sub-cache, pass at round `10` with `maxRounds = 3` (stale case). -/
theorem C6_witness :
    ((3 : Int) < 10 - (⟨1, 0, 0, 0, 0⟩ : TxInfo).round →
      "a" ∉ (cleanTxsPoolsIfNeeded 3 10 [("a", ⟨1, 0, 0, 0, 0⟩)]
        [(0, ["a"])]).map.map Prod.fst ∧
      "a" ∉ storeGet (cleanTxsPoolsIfNeeded 3 10 [("a", ⟨1, 0, 0, 0, 0⟩)]
        [(0, ["a"])]).stores (⟨1, 0, 0, 0, 0⟩ : TxInfo).storeId ∧
      (⟨(⟨1, 0, 0, 0, 0⟩ : TxInfo).storeId, "a"⟩ : RemoveEvent) ∈
        (cleanTxsPoolsIfNeeded 3 10 [("a", ⟨1, 0, 0, 0, 0⟩)] [(0, ["a"])]).events) ∧
    ((10 : Int) - (⟨1, 0, 0, 0, 0⟩ : TxInfo).round ≤ 3 →
      ("a", (⟨1, 0, 0, 0, 0⟩ : TxInfo)) ∈
        (cleanTxsPoolsIfNeeded 3 10 [("a", ⟨1, 0, 0, 0, 0⟩)] [(0, ["a"])]).map ∧
      "a" ∈ storeGet (cleanTxsPoolsIfNeeded 3 10 [("a", ⟨1, 0, 0, 0, 0⟩)]
        [(0, ["a"])]).stores (⟨1, 0, 0, 0, 0⟩ : TxInfo).storeId) :=
  C6_stale_records_evicted 3 10 [("a", ⟨1, 0, 0, 0, 0⟩)] [(0, ["a"])] "a"
    ⟨1, 0, 0, 0, 0⟩ (by decide) (by decide) (by decide)

/-- Auxiliary for C7: a record missing from its sub-cache is dropped from the
pending map, no `Remove` call names its hash, and its membership in every
sub-cache is untouched by the pass. -/
theorem clean_vanished_aux (maxR cur : Int) (entries : List (String × TxInfo))
    (stores : List (Nat × List String)) (h : String) (info : TxInfo)
    (hnd : (entries.map Prod.fst).Nodup)
    (hmem : (h, info) ∈ entries)
    (hnotin : h ∉ storeGet stores info.storeId) :
    h ∉ (cleanTxsPoolsIfNeeded maxR cur entries stores).map.map Prod.fst ∧
    (cleanTxsPoolsIfNeeded maxR cur entries stores).events.all
      (fun e => e.hash != h) = true ∧
    ∀ sid, (h ∈ storeGet (cleanTxsPoolsIfNeeded maxR cur entries stores).stores sid ↔
      h ∈ storeGet stores sid) := by
  induction entries generalizing stores with
  | nil => exact absurd hmem (List.not_mem_nil _)
  | cons ent rest ih =>
    obtain ⟨h0, info0⟩ := ent
    simp only [List.map_cons, List.nodup_cons] at hnd
    rcases List.mem_cons.mp hmem with heq | htail
    · rw [Prod.mk.injEq] at heq
      obtain ⟨rfl, rfl⟩ := heq
      rw [cleanTxsPoolsIfNeeded, if_neg hnotin]
      refine ⟨?_, ?_, ?_⟩
      · intro hk
        exact hnd.1 (clean_keys_subset maxR cur rest _ h hk)
      · rw [List.all_eq_true]
        intro e he
        have := clean_events_hash_mem maxR cur rest stores e he
        exact bne_iff_ne.mpr (fun hc => hnd.1 (hc ▸ this))
      · intro sid
        exact mem_storeGet_clean_of_not_key maxR cur h rest stores sid hnd.1
    · have hne : h ≠ h0 := by
        intro hcon
        exact hnd.1 (hcon ▸ List.mem_map_of_mem Prod.fst htail)
      rw [cleanTxsPoolsIfNeeded]
      by_cases hm0 : h0 ∈ storeGet stores info0.storeId
      · rw [if_pos hm0]
        by_cases hf0 : cur - info0.round ≤ maxR
        · rw [if_pos hf0]
          dsimp only
          have IH := ih stores hnd.2 htail hnotin
          refine ⟨?_, IH.2.1, IH.2.2⟩
          simp only [List.map_cons, List.mem_cons, not_or]
          exact ⟨hne, fun hc => IH.1 hc⟩
        · rw [if_neg hf0]
          dsimp only
          have hnotin' : h ∉ storeGet (storeRemove stores info0.storeId h0) info.storeId :=
            fun hc => hnotin ((mem_storeGet_storeRemove_of_ne stores info.storeId
              info0.storeId h0 h hne).mp hc)
          have IH := ih (storeRemove stores info0.storeId h0) hnd.2 htail hnotin'
          refine ⟨IH.1, ?_, ?_⟩
          · rw [List.all_cons, IH.2.1, Bool.and_true]
            exact bne_iff_ne.mpr (fun hc => hne hc.symm)
          · intro sid
            exact (IH.2.2 sid).trans
              (mem_storeGet_storeRemove_of_ne stores sid info0.storeId h0 h hne)
      · rw [if_neg hm0]
        exact ih stores hnd.2 htail hnotin

/-- C7: in one reaper pass, a pending record whose hash is no longer in its
sub-cache (removed by a third party) is deleted from the pending map without
any `Remove` call naming its hash and without being counted as a cleanup
(every cleanup count corresponds to a `Remove` call, none of which names this
hash); membership of the hash in every sub-cache is unchanged by the pass. -/
theorem C7_vanished_records_dropped (maxR cur : Int) (entries : List (String × TxInfo))
    (stores : List (Nat × List String)) (h : String) (info : TxInfo)
    (hnd : (entries.map Prod.fst).Nodup)
    (hmem : (h, info) ∈ entries)
    (hnotin : h ∉ storeGet stores info.storeId) :
    h ∉ (cleanTxsPoolsIfNeeded maxR cur entries stores).map.map Prod.fst ∧
    (cleanTxsPoolsIfNeeded maxR cur entries stores).events.all
      (fun e => e.hash != h) = true ∧
    (cleanTxsPoolsIfNeeded maxR cur entries stores).numCleaned =
      (cleanTxsPoolsIfNeeded maxR cur entries stores).events.length ∧
    ∀ sid, (h ∈ storeGet (cleanTxsPoolsIfNeeded maxR cur entries stores).stores sid ↔
      h ∈ storeGet stores sid) := by
  have haux := clean_vanished_aux maxR cur entries stores h info hnd hmem hnotin
  exact ⟨haux.1, haux.2.1, numCleaned_eq_events_length maxR cur entries stores, haux.2.2⟩

/-- Witness for C7: one pending record `("b", round 2, store 0)` whose hash
has vanished from its sub-cache, pass at round `10` with `maxRounds = 3`. -/
theorem C7_witness :
    "b" ∉ (cleanTxsPoolsIfNeeded 3 10 [("b", ⟨2, 1, 1, 0, 0⟩)]
      [(0, [])]).map.map Prod.fst ∧
    (cleanTxsPoolsIfNeeded 3 10 [("b", ⟨2, 1, 1, 0, 0⟩)] [(0, [])]).events.all
      (fun e => e.hash != "b") = true ∧
    (cleanTxsPoolsIfNeeded 3 10 [("b", ⟨2, 1, 1, 0, 0⟩)] [(0, [])]).numCleaned =
      (cleanTxsPoolsIfNeeded 3 10 [("b", ⟨2, 1, 1, 0, 0⟩)] [(0, [])]).events.length ∧
    ∀ sid, ("b" ∈ storeGet (cleanTxsPoolsIfNeeded 3 10 [("b", ⟨2, 1, 1, 0, 0⟩)]
      [(0, [])]).stores sid ↔ "b" ∈ storeGet [((0 : Nat), ([] : List String))] sid) :=
  C7_vanished_records_dropped 3 10 [("b", ⟨2, 1, 1, 0, 0⟩)] [(0, [])] "b"
    ⟨2, 1, 1, 0, 0⟩ (by decide) (by decide) (by decide)

/-! ## Pool cleaner callback: shard resolution from addresses

Source: `computeSenderAndReceiverShards` / `getShardFromAddress`.  The
cleaner's `emptyAddress` field is `make([]byte, addressPubkeyConverter.Len())`:
the all-zero byte string of the converter's configured length.  Addresses are
embedded as byte lists; the shard coordinator as its observable interface
(`SelfId`, `ComputeId`). -/

/-- The `sharding.Coordinator` collaborator, by its observable interface. -/
structure ShardCoordinator where
  selfId : Nat
  computeId : List Nat → Nat

/-- `tpc.emptyAddress`: the all-zero address of the converter's length. -/
def emptyAddress (convLen : Nat) : List Nat := List.replicate convLen 0

/-- `getShardFromAddress`: the self shard for the empty address, otherwise
the coordinator's `ComputeId`.  The Go signature can surface an error but
neither branch produces one. -/
def getShardFromAddress (sc : ShardCoordinator) (convLen : Nat) (address : List Nat) :
    Except Unit Nat :=
  if address = emptyAddress convLen then Except.ok sc.selfId
  else Except.ok (sc.computeId address)

/-- The decoded transaction delivered to the unsigned-tx callback, by the two
accessors the source uses (`GetSndAddr`, `GetRcvAddr`). -/
structure TxHandler where
  sndAddr : List Nat
  rcvAddr : List Nat

/-- `computeSenderAndReceiverShards`: resolve the sender address, then the
receiver address, propagating a hypothetical error from either lookup. -/
def computeSenderAndReceiverShards (sc : ShardCoordinator) (convLen : Nat)
    (tx : TxHandler) : Except Unit (Nat × Nat) :=
  match getShardFromAddress sc convLen tx.sndAddr with
  | Except.error e => Except.error e
  | Except.ok senderShardID =>
    match getShardFromAddress sc convLen tx.rcvAddr with
    | Except.error e => Except.error e
    | Except.ok receiverShardID => Except.ok (senderShardID, receiverShardID)

/-- C8: for every unsigned transaction handed to the pool cleaner's callback,
an empty (all-zero, converter-length) sender address resolves to the
self-shard and an empty receiver address resolves to the self-shard, while a
non-empty address is resolved through the shard coordinator's `ComputeId`;
the resolution never fails. -/
theorem C8_empty_address_resolves_to_self_shard (sc : ShardCoordinator)
    (convLen : Nat) (tx : TxHandler) :
    computeSenderAndReceiverShards sc convLen tx =
      Except.ok
        ((if tx.sndAddr = List.replicate convLen 0 then sc.selfId
          else sc.computeId tx.sndAddr),
         (if tx.rcvAddr = List.replicate convLen 0 then sc.selfId
          else sc.computeId tx.rcvAddr)) := by
  rw [computeSenderAndReceiverShards, getShardFromAddress, getShardFromAddress,
    emptyAddress]
  by_cases h1 : tx.sndAddr = List.replicate convLen 0 <;>
    by_cases h2 : tx.rcvAddr = List.replicate convLen 0 <;>
    simp [h1, h2]

/-! ## Shard interceptors container factory: constructor contract

Source: `NewShardInterceptorsContainerFactory`.  Go interface handles are
embedded by their observable nil-ness (a `Bool` per collaborator).  The
function `checkBaseParams` lives in the base container-factory file, which is
not part of the sources at hand; it is modelled from the spec below.  When
`SizeCheckDelta > 0` the marshalizer is first wrapped in a size-check
unmarshalizer; the wrapper is a freshly allocated (non-nil) object, so the
effective marshalizer handle is then non-nil. -/

/-- The named construction errors of the `process` package used by the
factory constructor. -/
inductive PErr where
  | errNilShardCoordinator
  | errNilAccountsAdapter
  | errNilMarshalizer
  | errNilHasher
  | errNilStore
  | errNilDataPoolHolder
  | errNilMessenger
  | errNilMultiSigVerifier
  | errNilNodesCoordinator
  | errNilBlackListHandler
  | errNilAntifloodHandler
  | errNilKeyGen
  | errNilSingleSigner
  | errNilAddressConverter
  | errNilEconomicsFeeHandler
  | errNilHeaderSigVerifier
  | errInvalidChainID
  | errNilValidityAttester
  | errNilEpochStartTrigger
  | errNotPositiveValue
deriving DecidableEq, Repr

/-- The `ShardInterceptorsContainerFactoryArgs` argument struct, each
collaborator handle represented by whether it is nil. -/
structure ShardInterceptorsContainerFactoryArgs where
  shardCoordinatorIsNil : Bool
  accountsIsNil : Bool
  marshalizerIsNil : Bool
  hasherIsNil : Bool
  storeIsNil : Bool
  dataPoolIsNil : Bool
  messengerIsNil : Bool
  multiSignerIsNil : Bool
  nodesCoordinatorIsNil : Bool
  blackListIsNil : Bool
  antifloodHandlerIsNil : Bool
  keyGenIsNil : Bool
  singleSignerIsNil : Bool
  addrConverterIsNil : Bool
  txFeeHandlerIsNil : Bool
  blockSignKeyGenIsNil : Bool
  blockSingleSignerIsNil : Bool
  headerSigVerifierIsNil : Bool
  validityAttesterIsNil : Bool
  epochStartTriggerIsNil : Bool
  chainID : List Nat
  sizeCheckDelta : Nat
deriving DecidableEq, Repr

/-- Modelled from the spec: `checkBaseParams` (defined in the base
interceptors-container-factory file, not among the sources at hand) checks
every base collaborator handle for nil, in the order of the call site, and
returns the role-specific named error for the first nil handle. -/
def checkBaseParams (shardCoordinatorIsNil accountsIsNil marshalizerIsNil hasherIsNil
    storeIsNil dataPoolIsNil messengerIsNil multiSignerIsNil nodesCoordinatorIsNil
    blackListIsNil antifloodHandlerIsNil : Bool) : Except PErr Unit :=
  if shardCoordinatorIsNil then Except.error PErr.errNilShardCoordinator
  else if accountsIsNil then Except.error PErr.errNilAccountsAdapter
  else if marshalizerIsNil then Except.error PErr.errNilMarshalizer
  else if hasherIsNil then Except.error PErr.errNilHasher
  else if storeIsNil then Except.error PErr.errNilStore
  else if dataPoolIsNil then Except.error PErr.errNilDataPoolHolder
  else if messengerIsNil then Except.error PErr.errNilMessenger
  else if multiSignerIsNil then Except.error PErr.errNilMultiSigVerifier
  else if nodesCoordinatorIsNil then Except.error PErr.errNilNodesCoordinator
  else if blackListIsNil then Except.error PErr.errNilBlackListHandler
  else if antifloodHandlerIsNil then Except.error PErr.errNilAntifloodHandler
  else Except.ok ()

/-- Modelled from the spec: the compile-time goroutine bound for the shared
throttler (§4.C).  Its exact value is not among the sources at hand; only its
positivity matters to construction. -/
def numGoRoutines : Nat := 100

/-- Modelled from the spec: `throttler.NewNumGoRoutineThrottler` succeeds for
a positive maximum. -/
def NewNumGoRoutineThrottlerOk (maxGoRoutines : Nat) : Except PErr Unit :=
  if 1 ≤ maxGoRoutines then Except.ok () else Except.error PErr.errNotPositiveValue

/-- The constructed `shardInterceptorsContainerFactory` object (its wired
collaborators are opaque; the configuration it retains is kept). -/
structure shardInterceptorsContainerFactory where
  chainID : List Nat
  sizeCheckDelta : Nat
deriving DecidableEq, Repr

/-- The marshalizer handle actually passed to `checkBaseParams`: when
`SizeCheckDelta > 0` the source first wraps `args.Marshalizer` in
`marshal.NewSizeCheckUnmarshalizer`, a non-nil wrapper object. -/
def effMarshalizerIsNil (args : ShardInterceptorsContainerFactoryArgs) : Bool :=
  if 0 < args.sizeCheckDelta then false else args.marshalizerIsNil

/-- `NewShardInterceptorsContainerFactory`: validate the base collaborators,
then each shard-specific collaborator in source order, then the chain id,
then build the factory (the throttler construction is the last fallible
step). -/
def NewShardInterceptorsContainerFactory (args : ShardInterceptorsContainerFactoryArgs) :
    Except PErr shardInterceptorsContainerFactory :=
  match checkBaseParams args.shardCoordinatorIsNil args.accountsIsNil
      (effMarshalizerIsNil args) args.hasherIsNil args.storeIsNil args.dataPoolIsNil
      args.messengerIsNil args.multiSignerIsNil args.nodesCoordinatorIsNil
      args.blackListIsNil args.antifloodHandlerIsNil with
  | Except.error e => Except.error e
  | Except.ok _ =>
    if args.keyGenIsNil then Except.error PErr.errNilKeyGen
    else if args.singleSignerIsNil then Except.error PErr.errNilSingleSigner
    else if args.addrConverterIsNil then Except.error PErr.errNilAddressConverter
    else if args.txFeeHandlerIsNil then Except.error PErr.errNilEconomicsFeeHandler
    else if args.blockSignKeyGenIsNil then Except.error PErr.errNilKeyGen
    else if args.blockSingleSignerIsNil then Except.error PErr.errNilSingleSigner
    else if args.headerSigVerifierIsNil then Except.error PErr.errNilHeaderSigVerifier
    else if args.chainID.length = 0 then Except.error PErr.errInvalidChainID
    else if args.validityAttesterIsNil then Except.error PErr.errNilValidityAttester
    else if args.epochStartTriggerIsNil then Except.error PErr.errNilEpochStartTrigger
    else
      match NewNumGoRoutineThrottlerOk numGoRoutines with
      | Except.error e => Except.error e
      | Except.ok _ => Except.ok ⟨args.chainID, args.sizeCheckDelta⟩

/-- True when `checkBaseParams` accepts the (effective) base handles. -/
def baseParamsOk (args : ShardInterceptorsContainerFactoryArgs) : Bool :=
  match checkBaseParams args.shardCoordinatorIsNil args.accountsIsNil
      (effMarshalizerIsNil args) args.hasherIsNil args.storeIsNil args.dataPoolIsNil
      args.messengerIsNil args.multiSignerIsNil args.nodesCoordinatorIsNil
      args.blackListIsNil args.antifloodHandlerIsNil with
  | Except.ok _ => true
  | Except.error _ => false

/-- True when all crypto-related handles checked before the chain id are
non-nil. -/
def cryptoParamsOk (args : ShardInterceptorsContainerFactoryArgs) : Bool :=
  !args.keyGenIsNil && !args.singleSignerIsNil && !args.addrConverterIsNil &&
  !args.txFeeHandlerIsNil && !args.blockSignKeyGenIsNil &&
  !args.blockSingleSignerIsNil && !args.headerSigVerifierIsNil

/-- True when every constructor check passes. -/
def allParamsOk (args : ShardInterceptorsContainerFactoryArgs) : Bool :=
  baseParamsOk args && cryptoParamsOk args && !(args.chainID.length = 0) &&
  !args.validityAttesterIsNil && !args.epochStartTriggerIsNil

/-- True when the constructor returned a factory object. -/
def factoryCreated (r : Except PErr shardInterceptorsContainerFactory) : Bool :=
  match r with
  | Except.ok _ => true
  | Except.error _ => false

/-- C9: `NewShardInterceptorsContainerFactory` returns the named error of the
first failing nil check — in particular, a nil `KeyGen` (with the base
collaborators present) yields `ErrNilKeyGen`, and an empty `ChainID` (with all
earlier checks passing) yields `ErrInvalidChainID` — and a factory object is
returned only when every collaborator check passes: on any failure the result
is the error alone, with no factory. -/
theorem C9_constructor_nil_checks (args : ShardInterceptorsContainerFactoryArgs) :
    (baseParamsOk args = true → args.keyGenIsNil = true →
      NewShardInterceptorsContainerFactory args = Except.error PErr.errNilKeyGen) ∧
    (baseParamsOk args = true → cryptoParamsOk args = true → args.chainID = [] →
      NewShardInterceptorsContainerFactory args = Except.error PErr.errInvalidChainID) ∧
    (factoryCreated (NewShardInterceptorsContainerFactory args) = true →
      allParamsOk args = true) := by
  refine ⟨?_, ?_, ?_⟩
  · intro hbase hk
    unfold NewShardInterceptorsContainerFactory
    unfold baseParamsOk at hbase
    cases hcb : checkBaseParams args.shardCoordinatorIsNil args.accountsIsNil
        (effMarshalizerIsNil args) args.hasherIsNil args.storeIsNil args.dataPoolIsNil
        args.messengerIsNil args.multiSignerIsNil args.nodesCoordinatorIsNil
        args.blackListIsNil args.antifloodHandlerIsNil with
    | error e => rw [hcb] at hbase; simp at hbase
    | ok u => simp [hk]
  · intro hbase hcrypto hchain
    unfold NewShardInterceptorsContainerFactory
    unfold baseParamsOk at hbase
    simp only [cryptoParamsOk, Bool.and_eq_true, Bool.not_eq_true'] at hcrypto
    obtain ⟨⟨⟨⟨⟨⟨h1, h2⟩, h3⟩, h4⟩, h5⟩, h6⟩, h7⟩ := hcrypto
    cases hcb : checkBaseParams args.shardCoordinatorIsNil args.accountsIsNil
        (effMarshalizerIsNil args) args.hasherIsNil args.storeIsNil args.dataPoolIsNil
        args.messengerIsNil args.multiSignerIsNil args.nodesCoordinatorIsNil
        args.blackListIsNil args.antifloodHandlerIsNil with
    | error e => rw [hcb] at hbase; simp at hbase
    | ok u => simp [h1, h2, h3, h4, h5, h6, h7, hchain]
  · intro hok
    unfold NewShardInterceptorsContainerFactory at hok
    cases hcb : checkBaseParams args.shardCoordinatorIsNil args.accountsIsNil
        (effMarshalizerIsNil args) args.hasherIsNil args.storeIsNil args.dataPoolIsNil
        args.messengerIsNil args.multiSignerIsNil args.nodesCoordinatorIsNil
        args.blackListIsNil args.antifloodHandlerIsNil with
    | error e => rw [hcb] at hok; simp [factoryCreated] at hok
    | ok u =>
      rw [hcb] at hok
      by_cases h1 : args.keyGenIsNil = true
      · simp [h1, factoryCreated] at hok
      by_cases h2 : args.singleSignerIsNil = true
      · simp [h1, h2, factoryCreated] at hok
      by_cases h3 : args.addrConverterIsNil = true
      · simp [h1, h2, h3, factoryCreated] at hok
      by_cases h4 : args.txFeeHandlerIsNil = true
      · simp [h1, h2, h3, h4, factoryCreated] at hok
      by_cases h5 : args.blockSignKeyGenIsNil = true
      · simp [h1, h2, h3, h4, h5, factoryCreated] at hok
      by_cases h6 : args.blockSingleSignerIsNil = true
      · simp [h1, h2, h3, h4, h5, h6, factoryCreated] at hok
      by_cases h7 : args.headerSigVerifierIsNil = true
      · simp [h1, h2, h3, h4, h5, h6, h7, factoryCreated] at hok
      by_cases h8 : args.chainID.length = 0
      · simp [h1, h2, h3, h4, h5, h6, h7, h8, factoryCreated] at hok
      by_cases h9 : args.validityAttesterIsNil = true
      · simp [h1, h2, h3, h4, h5, h6, h7, h8, h9, factoryCreated] at hok
      by_cases h10 : args.epochStartTriggerIsNil = true
      · simp [h1, h2, h3, h4, h5, h6, h7, h8, h9, h10, factoryCreated] at hok
      unfold allParamsOk baseParamsOk
      rw [hcb]
      simp [cryptoParamsOk, Bool.eq_false_iff.mpr h1, Bool.eq_false_iff.mpr h2,
        Bool.eq_false_iff.mpr h3, Bool.eq_false_iff.mpr h4, Bool.eq_false_iff.mpr h5,
        Bool.eq_false_iff.mpr h6, Bool.eq_false_iff.mpr h7, h8,
        Bool.eq_false_iff.mpr h9, Bool.eq_false_iff.mpr h10]

end ElrondSpec
